import Mathlib

/-!
Verification of the image-optimization script `optimize_logo.py`.

The script decodes one PNG file, re-encodes it, checks the resulting byte
size against a 1 MiB threshold using the Python expression
`os.path.getsize(p) / 1024 / 1024 >= 1.0` (binary64 floating point), resizes
to 90 percent of the original dimensions via `int(d * 0.9)` if the gate
fails, re-checks, resizes the original image to a fixed 800 by 800 if the
gate fails again, and finally copies the working file to a hard-coded
destination path.

The development has two parts:
1. an exact model of the binary64 (IEEE double) arithmetic that the size
   gate and the 90-percent target computation perform on natural numbers;
2. a model of the control flow, file-system effects and event trace of the
   script, parametric in the image decoder and the PNG encoder (which are
   external library code), with the control decisions taken exactly as in
   the source.
-/

/-- Number of binary digits of a natural number, with explicit fuel so that
the definition is structural (and hence reduces in the kernel).  The fuel
argument strictly exceeds the number of halving steps whenever `n ≤ fuel`. -/
def bitLenAux : ℕ → ℕ → ℕ
  | 0, _ => 0
  | f + 1, n => if n = 0 then 0 else bitLenAux f (n / 2) + 1

/-- Number of binary digits of a natural number (`0` for `0`). -/
def bitLen (n : ℕ) : ℕ := bitLenAux n n

/-- Round `m / p` to the nearest integer, ties to even, for a positive
divisor `p` (used with `p` a power of two).  This is the rounding step of
IEEE round-to-nearest-even on significands. -/
def rne (m p : ℕ) : ℕ :=
  let q := m / p
  let r := m % p
  if p < 2 * r then q + 1
  else if 2 * r < p then q
  else if q % 2 = 0 then q else q + 1

/-- Round a natural number to at most 53 significant binary digits using
round-to-nearest, ties to even.  `roundMant m` is the integer such that the
binary64 value nearest to `m * 2 ^ e` is `roundMant m * 2 ^ e`, for any
exponent `e` that keeps the value inside the normal double range.  A
natural number below `2 ^ 53` is exactly representable and unchanged. -/
def roundMant (m : ℕ) : ℕ :=
  if m < 2 ^ 53 then m
  else
    let p := 2 ^ (bitLen m - 53)
    rne m p * p

/-- Binary64 value of the Python expression `size_in_bytes / 1024 / 1024`
(from lines 13, 22 and 30 of the source).  Python `int / int` produces the
correctly rounded double of the true quotient; dividing by `1024 = 2 ^ 10`
only shifts the exponent, so the first division rounds the significand `n`
to 53 bits and the second division is exact.  We apply the rounding twice,
exactly as the two divisions do (the second application is the identity).
No overflow or underflow can occur for any byte count that fits in the
double exponent range (below `2 ^ 1044`). -/
def sizeMB (n : ℕ) : ℚ := (roundMant (roundMant n) : ℚ) / 2 ^ 20

/-- The size gate of the source (`size1 >= 1.0` on line 17, `size2 >= 1.0`
on line 26): true when the encoded file still needs further reduction. -/
def gate (n : ℕ) : Bool := decide (1 ≤ sizeMB n)

/-- The significand of the binary64 number nearest to `0.9`: the literal
`0.9` in the source denotes `c09 / 2 ^ 53`.  Indeed `10 * c09 = 9 * 2 ^ 53 + 2`,
so `c09 / 2 ^ 53 - 9 / 10 = (2 / 10) / 2 ^ 53`, which is below the half
spacing `1 / 2 ^ 54 = (5 / 10) / 2 ^ 53` of doubles in `[1/2, 1)`. -/
def c09 : ℕ := 8106479329266893

/-- Binary64 evaluation of the Python expression `int(d * 0.9)` from line 19
of the source, for a nonnegative integer `d`.  The int operand is first
converted to the nearest double (significand `roundMant d`), the product
with `0.9 = c09 / 2 ^ 53` is rounded to the nearest double (its significand
is `roundMant (roundMant d * c09)`), and `int` truncates the nonnegative
result toward zero, which is the floor, i.e. division by `2 ^ 53` on the
significand. -/
def intTimes09 (d : ℕ) : ℕ := roundMant (roundMant d * c09) / 2 ^ 53

/-- The stage-1 resize target `new_size = (int(img.width * 0.9),
int(img.height * 0.9))` from line 19 of the source. -/
def new_size (w h : ℕ) : ℕ × ℕ := (intTimes09 w, intTimes09 h)

/-- Model of a PIL image value, tracking provenance and pixel dimensions.
`orig w h` is the image decoded from the source file (`Image.open`,
line 6); `resized src w h` is the result of `src.resize((w, h), LANCZOS)`,
which PIL guarantees has exactly the requested dimensions (the resampling
filter only affects pixel content, which we do not model). -/
inductive PImage where
  | orig : ℕ → ℕ → PImage
  | resized : PImage → ℕ → ℕ → PImage
deriving DecidableEq, Repr

/-- Pixel width of an image value (`img.width`). -/
def PImage.width : PImage → ℕ
  | .orig w _ => w
  | .resized _ w _ => w

/-- Pixel height of an image value (`img.height`). -/
def PImage.height : PImage → ℕ
  | .orig _ h => h
  | .resized _ _ h => h

/-- The error taxonomy of the run: a decode failure (missing or corrupt
source file) or an IO failure (unwritable destination).  In Python these
are uncaught exceptions; an uncaught exception terminates the process with
a non-zero exit status and a traceback. -/
inductive Err where
  | decodeError : Err
  | ioError : Err
deriving DecidableEq, Repr

/-- Externally visible operations performed by the script, in order:
a successful encode of an image at a quality setting (`img.save`), a call
of the resizer with its input image and target dimensions (`img.resize`),
and the final copy to the destination (`shutil.copy`). -/
inductive Ev where
  | save : PImage → ℕ → Ev
  | resize : PImage → ℕ × ℕ → Ev
  | copy : Ev
deriving DecidableEq, Repr

/-- The three file paths the script touches: the source
`logo_original.png`, the working output `logo_optimized.png`, and the
hard-coded destination in the Downloads folder.  Each holds `none` (no
file) or the byte content of the file. -/
structure FS where
  src : Option (List ℕ)
  work : Option (List ℕ)
  dest : Option (List ℕ)
deriving DecidableEq, Repr

/-- The external library behavior the run is parametric in: `decode` maps
source bytes to the decoded dimensions (or a decode failure), `enc` maps an
image value and a quality setting to the PNG bytes that `img.save` with
`optimize=True` writes (or an IO failure; `enc` is a function, so encoding
a fixed image at a fixed quality always yields the same bytes), and
`copyFail` tells whether the final copy raises an IO error. -/
structure Oracle where
  decode : List ℕ → Except Err (ℕ × ℕ)
  enc : PImage → ℕ → Except Err (List ℕ)
  copyFail : Bool

/-- Result of a run: the final file-system state, the trace of performed
operations, the image value whose encoding was published (when the run
succeeded), and the process outcome (`Except.error` models the uncaught
exception, hence a non-zero exit). -/
structure Outcome where
  fs : FS
  events : List Ev
  pubImg : Option PImage
  result : Except Err Unit
deriving Repr

/-- One `img.save('logo_optimized.png', 'PNG', optimize=True, quality=q)`
followed by `os.path.getsize('logo_optimized.png')` (lines 12-13, 21-22,
29-30 of the source): on success the working file is overwritten with the
encoded bytes, whatever it held before, and the byte size is read back
from the freshly written file. -/
def save (o : Oracle) (fs : FS) (i : PImage) (q : ℕ) : Except Err (FS × ℕ) :=
  match o.enc i q with
  | Except.error e => Except.error e
  | Except.ok b => Except.ok ({ fs with work := some b }, b.length)

/-- The final `shutil.copy('logo_optimized.png', dest)` (line 35): a
byte-for-byte copy of the working file over the destination, overwriting
any existing destination file; fails with an IO error when the destination
is unwritable, in which case nothing is published. -/
def publish (o : Oracle) (fs : FS) (evs : List Ev) (li : PImage) : Outcome :=
  if o.copyFail then ⟨fs, evs, none, Except.error Err.ioError⟩
  else ⟨{ fs with dest := fs.work }, evs ++ [Ev.copy], some li, Except.ok ()⟩

/-- Lines 18-31 of the source, entered when the first gate reported that
reduction is needed: compute `new_size`, resize — note that both resize
calls take `img`, the originally decoded image, as receiver — re-encode at
quality 85, re-check the gate, and if it still fails resize `img` to the
fixed `(800, 800)`, re-encode at quality 80 and fall through (no third
gate check).  `fs1` already holds the first encode in the working file. -/
def afterGate1 (o : Oracle) (fs1 : FS) (img : PImage) : Outcome :=
  let tgt := new_size img.width img.height
  let r1 := PImage.resized img tgt.1 tgt.2
  let evs1 := [Ev.save img 85, Ev.resize img tgt]
  match save o fs1 r1 85 with
  | Except.error e => ⟨fs1, evs1, none, Except.error e⟩
  | Except.ok (fs2, size2) =>
    let evs2 := evs1 ++ [Ev.save r1 85]
    if gate size2 then
      let r2 := PImage.resized img 800 800
      let evs3 := evs2 ++ [Ev.resize img (800, 800)]
      match save o fs2 r2 80 with
      | Except.error e => ⟨fs2, evs3, none, Except.error e⟩
      | Except.ok (fs3, _) => publish o fs3 (evs3 ++ [Ev.save r2 80]) r2
    else publish o fs2 evs2 r1

/-- The whole script, lines 6-35: decode the source file, encode it at
quality 85, and either publish directly (gate passed) or escalate through
`afterGate1`.  Every failure propagates: there is no handler anywhere in
the source, so each error short-circuits to the outcome. -/
def run (o : Oracle) (fs0 : FS) : Outcome :=
  match fs0.src with
  | none => ⟨fs0, [], none, Except.error Err.decodeError⟩
  | some sb =>
    match o.decode sb with
    | Except.error e => ⟨fs0, [], none, Except.error e⟩
    | Except.ok (w, h) =>
      let img := PImage.orig w h
      match save o fs0 img 85 with
      | Except.error e => ⟨fs0, [], none, Except.error e⟩
      | Except.ok (fs1, size1) =>
        if gate size1 then afterGate1 o fs1 img
        else publish o fs1 [Ev.save img 85] img

/-- A 1 MiB file content: large enough to make the gate fire. -/
def bigBytes : List ℕ := List.replicate 1048576 0

/-- A 1-byte file content: the gate passes. -/
def smallBytes : List ℕ := [0]

/-- Concrete oracle whose encoder always produces a 1 MiB file, applied to
a 2000 by 2000 source image: both gates fire. -/
def oBig : Oracle :=
  ⟨fun _ => Except.ok (2000, 2000), fun _ _ => Except.ok bigBytes, false⟩

/-- Concrete oracle whose encoder always produces a 1-byte file, applied to
a 500 by 500 source image: the first gate already passes. -/
def oSmall : Oracle :=
  ⟨fun _ => Except.ok (500, 500), fun _ _ => Except.ok smallBytes, false⟩

/-- Concrete oracle whose encoder always produces a 1 MiB file, applied to
a degenerate 1 by 600 source image: the gate fires and the stage-1 target
computation yields a zero width. -/
def oTiny : Oracle :=
  ⟨fun _ => Except.ok (1, 600), fun _ _ => Except.ok bigBytes, false⟩

/-- Initial file system: the source file exists, nothing else does. -/
def fsInit : FS := ⟨some [], none, none⟩

/-- File system without a source file: `Image.open` fails. -/
def fsNoSrc : FS := ⟨none, none, none⟩

/-! ### Basic facts about the bit-length function -/

theorem bitLenAux_zero (f : ℕ) : bitLenAux f 0 = 0 := by
  cases f <;> rfl

theorem bitLenAux_congr : ∀ f g n : ℕ, n ≤ f → n ≤ g → bitLenAux f n = bitLenAux g n
  | 0, g, n, hf, _ => by
    have hn : n = 0 := Nat.le_zero.mp hf
    subst hn
    rw [bitLenAux_zero, bitLenAux_zero]
  | _ + 1, 0, n, _, hg => by
    have hn : n = 0 := Nat.le_zero.mp hg
    subst hn
    rw [bitLenAux_zero, bitLenAux_zero]
  | f + 1, g + 1, n, hf, hg => by
    by_cases hn : n = 0
    · subst hn
      rw [bitLenAux_zero, bitLenAux_zero]
    · have hlt : n / 2 < n := Nat.div_lt_self (Nat.pos_of_ne_zero hn) one_lt_two
      simp only [bitLenAux, if_neg hn]
      rw [bitLenAux_congr f g (n / 2) (by omega) (by omega)]

theorem bitLen_rec (n : ℕ) (h : 0 < n) : bitLen n = bitLen (n / 2) + 1 := by
  unfold bitLen
  cases n with
  | zero => omega
  | succ m =>
    simp only [bitLenAux, if_neg (Nat.succ_ne_zero m)]
    have hlt : (m + 1) / 2 < m + 1 := Nat.div_lt_self (Nat.succ_pos m) one_lt_two
    rw [bitLenAux_congr m ((m + 1) / 2) ((m + 1) / 2) (by omega) le_rfl]

theorem bitLen_spec (n : ℕ) : 0 < n → 2 ^ (bitLen n - 1) ≤ n ∧ n < 2 ^ bitLen n := by
  induction n using Nat.strong_induction_on with
  | _ n ih =>
    intro hn
    by_cases h1 : n = 1
    · subst h1
      constructor <;> simp [bitLen, bitLenAux]
    · have h2 : 2 ≤ n := by omega
      have hd : 0 < n / 2 := Nat.div_pos h2 two_pos
      obtain ⟨lo, hi⟩ := ih (n / 2) (Nat.div_lt_self hn one_lt_two) hd
      rw [bitLen_rec n hn]
      have hL1 : 1 ≤ bitLen (n / 2) := by
        by_contra hc
        push_neg at hc
        have h0 : bitLen (n / 2) = 0 := by omega
        rw [h0, pow_zero] at hi
        omega
      have hdm := Nat.div_add_mod n 2
      have hmod : n % 2 < 2 := Nat.mod_lt n two_pos
      constructor
      · have e1 : bitLen (n / 2) + 1 - 1 = (bitLen (n / 2) - 1) + 1 := by omega
        rw [e1, pow_succ]
        have : 2 ^ (bitLen (n / 2) - 1) * 2 ≤ n / 2 * 2 := by
          exact Nat.mul_le_mul_right 2 lo
        omega
      · rw [pow_succ]
        have : (n / 2 + 1) * 2 ≤ 2 ^ bitLen (n / 2) * 2 := by
          exact Nat.mul_le_mul_right 2 hi
        omega

theorem bitLen_le {n k : ℕ} (h : n < 2 ^ k) : bitLen n ≤ k := by
  rcases Nat.eq_zero_or_pos n with h0 | h0
  · subst h0
    rw [bitLen, bitLenAux_zero]
    exact Nat.zero_le k
  · obtain ⟨lo, _⟩ := bitLen_spec n h0
    have : 2 ^ (bitLen n - 1) < 2 ^ k := lt_of_le_of_lt lo h
    have := (Nat.pow_lt_pow_iff_right one_lt_two).mp this
    omega

theorem lt_bitLen {n k : ℕ} (h : 2 ^ k ≤ n) : k < bitLen n := by
  have hn : 0 < n := lt_of_lt_of_le (Nat.pos_pow_of_pos k two_pos) h
  obtain ⟨_, hi⟩ := bitLen_spec n hn
  have : 2 ^ k < 2 ^ bitLen n := lt_of_le_of_lt h hi
  exact (Nat.pow_lt_pow_iff_right one_lt_two).mp this

/-! ### Facts about round-to-nearest-even -/

theorem rne_ge_div (m p : ℕ) : m / p ≤ rne m p := by
  simp only [rne]
  split_ifs <;> omega

theorem rne_le (m p : ℕ) (hp : 0 < p) : 2 * (rne m p * p) ≤ 2 * m + p := by
  have h1 : m / p * p + m % p = m := by
    rw [Nat.mul_comm]
    exact Nat.div_add_mod m p
  have h2 : m % p < p := Nat.mod_lt m hp
  simp only [rne]
  split_ifs with ha hb hc
  · calc 2 * ((m / p + 1) * p) = 2 * (m / p * p) + 2 * p := by ring
      _ ≤ 2 * (m / p * p) + 2 * (m % p) + p := by omega
      _ = 2 * (m / p * p + m % p) + p := by ring
      _ = 2 * m + p := by rw [h1]
  · calc 2 * (m / p * p) ≤ 2 * (m / p * p) + 2 * (m % p) := by omega
      _ = 2 * (m / p * p + m % p) := by ring
      _ = 2 * m := by rw [h1]
      _ ≤ 2 * m + p := by omega
  · calc 2 * (m / p * p) ≤ 2 * (m / p * p) + 2 * (m % p) := by omega
      _ = 2 * (m / p * p + m % p) := by ring
      _ = 2 * m := by rw [h1]
      _ ≤ 2 * m + p := by omega
  · calc 2 * ((m / p + 1) * p) = 2 * (m / p * p) + 2 * p := by ring
      _ ≤ 2 * (m / p * p) + 2 * (m % p) + p := by omega
      _ = 2 * (m / p * p + m % p) + p := by ring
      _ = 2 * m + p := by rw [h1]

/-! ### Facts about rounding a natural number to 53 significant bits -/

theorem roundMant_eq_self {m : ℕ} (h : m < 2 ^ 53) : roundMant m = m := by
  unfold roundMant
  rw [if_pos h]

theorem roundMant_big {m : ℕ} (h : 2 ^ 53 ≤ m) :
    roundMant m = rne m (2 ^ (bitLen m - 53)) * 2 ^ (bitLen m - 53) := by
  rw [roundMant, if_neg (Nat.not_lt.mpr h)]

theorem roundMant_lb {m : ℕ} (h : 2 ^ 53 ≤ m) : 2 ^ 52 ≤ roundMant m := by
  rw [roundMant_big h]
  have hm : 0 < m := lt_of_lt_of_le (Nat.pos_pow_of_pos 53 two_pos) h
  have hbl : 53 < bitLen m := lt_bitLen h
  obtain ⟨lo, _⟩ := bitLen_spec m hm
  have h1 : bitLen m - 1 = (bitLen m - 53) + 52 := by omega
  rw [h1] at lo
  have h3 : 2 ^ 52 ≤ m / 2 ^ (bitLen m - 53) := by
    rw [Nat.le_div_iff_mul_le (Nat.pos_pow_of_pos _ two_pos)]
    calc 2 ^ 52 * 2 ^ (bitLen m - 53) = 2 ^ ((bitLen m - 53) + 52) := by
          rw [← pow_add]
          ring_nf
      _ ≤ m := lo
  calc 2 ^ 52 ≤ m / 2 ^ (bitLen m - 53) := h3
    _ ≤ rne m (2 ^ (bitLen m - 53)) := rne_ge_div m _
    _ ≤ rne m (2 ^ (bitLen m - 53)) * 2 ^ (bitLen m - 53) :=
        Nat.le_mul_of_pos_right _ (Nat.pos_pow_of_pos _ two_pos)

/-! ### The size gate -/

theorem gate_iff (n : ℕ) : gate n = true ↔ 1048576 ≤ n := by
  have key : 1048576 ≤ roundMant (roundMant n) ↔ 1048576 ≤ n := by
    constructor
    · intro h
      by_contra hlt
      push_neg at hlt
      have hn53 : n < 2 ^ 53 := lt_trans hlt (by norm_num)
      rw [roundMant_eq_self hn53, roundMant_eq_self hn53] at h
      omega
    · intro h
      by_cases h53 : n < 2 ^ 53
      · rw [roundMant_eq_self h53, roundMant_eq_self h53]
        exact h
      · push_neg at h53
        have h1 : 2 ^ 52 ≤ roundMant n := roundMant_lb h53
        by_cases h2 : roundMant n < 2 ^ 53
        · rw [roundMant_eq_self h2]
          calc (1048576 : ℕ) ≤ 2 ^ 52 := by norm_num
            _ ≤ roundMant n := h1
        · push_neg at h2
          calc (1048576 : ℕ) ≤ 2 ^ 52 := by norm_num
            _ ≤ roundMant (roundMant n) := roundMant_lb h2
  have cast_iff : (1 : ℚ) ≤ sizeMB n ↔ 1048576 ≤ roundMant (roundMant n) := by
    rw [sizeMB, le_div_iff₀ (by positivity : (0 : ℚ) < 2 ^ 20), one_mul]
    constructor
    · intro h
      exact_mod_cast h
    · intro h
      exact_mod_cast h
  rw [gate, decide_eq_true_eq, cast_iff, key]

theorem bigBytes_length : bigBytes.length = 1048576 := by
  unfold bigBytes
  rw [List.length_replicate]

theorem gate_bigBytes : gate bigBytes.length = true := by
  rw [bigBytes_length, gate_iff]

theorem gate_false {n : ℕ} (h : n < 1048576) : gate n = false := by
  cases hgn : gate n with
  | false => rfl
  | true => exact absurd ((gate_iff n).1 hgn) (by omega)

/-! ### The 90-percent target computation -/

theorem intTimes09_floor_eq (w : ℕ) (h0 : 0 < w) (hw : w ≤ 2 ^ 50) :
    intTimes09 w = 9 * w / 10 := by
  by_cases hw1 : w = 1
  · subst hw1
    decide
  have hw2 : 2 ≤ w := by omega
  have hw53 : w < 2 ^ 53 := lt_of_le_of_lt hw (by norm_num)
  rw [intTimes09, roundMant_eq_self hw53]
  set M := w * c09 with hM
  have hM53 : 2 ^ 53 ≤ M := by
    calc (2 : ℕ) ^ 53 ≤ 2 * c09 := by norm_num [c09]
      _ ≤ w * c09 := Nat.mul_le_mul_right _ hw2
  have hMub : M < 2 ^ 103 := by
    calc M = w * c09 := rfl
      _ ≤ 2 ^ 50 * c09 := Nat.mul_le_mul_right _ hw
      _ < 2 ^ 103 := by norm_num [c09]
  set t := bitLen M - 53 with ht
  have hbl1 : 53 < bitLen M := lt_bitLen hM53
  have hbl2 : bitLen M ≤ 103 := bitLen_le hMub
  have ht53 : t ≤ 53 := by omega
  set p := 2 ^ t with hpdef
  have hp : (0 : ℕ) < p := Nat.pos_pow_of_pos t two_pos
  have hple : p ≤ 2 ^ 50 := by
    rw [hpdef]
    exact Nat.pow_le_pow_right (by norm_num) (by omega)
  set k := 9 * w / 10 with hk
  have hk1 : 10 * k ≤ 9 * w := by
    rw [hk]
    omega
  have hk2 : 9 * w < 10 * k + 10 := by
    rw [hk]
    omega
  have h10M : 10 * M = 9 * w * 2 ^ 53 + 2 * w := by
    rw [hM]
    norm_num [c09]
    ring
  have hkM : k * 2 ^ 53 ≤ M := by omega
  have hq53 : 2 ^ (53 - t) * p = 2 ^ 53 := by
    rw [hpdef, ← pow_add]
    congr 1
    omega
  have hdiv : k * 2 ^ (53 - t) ≤ M / p := by
    rw [Nat.le_div_iff_mul_le hp, mul_assoc, hq53]
    exact hkM
  have hlow : k * 2 ^ 53 ≤ rne M p * p := by
    calc k * 2 ^ 53 = k * 2 ^ (53 - t) * p := by rw [mul_assoc, hq53]
      _ ≤ M / p * p := Nat.mul_le_mul_right p hdiv
      _ ≤ rne M p * p := Nat.mul_le_mul_right p (rne_ge_div M p)
  have hup : 2 * M + p < 2 * ((k + 1) * 2 ^ 53) := by omega
  have hupfinal : rne M p * p < (k + 1) * 2 ^ 53 := by
    have h1 : 2 * (rne M p * p) ≤ 2 * M + p := rne_le M p hp
    exact Nat.lt_of_mul_lt_mul_left (lt_of_le_of_lt h1 hup)
  rw [roundMant_big hM53, ← ht, ← hpdef]
  exact Nat.div_eq_of_lt_le hlow hupfinal

/-! ### Inversion facts about the encoder step and the publish step -/

theorem save_ok_inv {o : Oracle} {fs : FS} {i : PImage} {q : ℕ} {fs1 : FS} {n1 : ℕ}
    (h : save o fs i q = Except.ok (fs1, n1)) :
    ∃ b, o.enc i q = Except.ok b ∧ fs1 = { fs with work := some b } ∧ n1 = b.length := by
  unfold save at h
  cases henc : o.enc i q with
  | error e =>
    rw [henc] at h
    exact absurd h (by simp)
  | ok b =>
    rw [henc] at h
    simp only [Except.ok.injEq, Prod.mk.injEq] at h
    exact ⟨b, rfl, h.1.symm, h.2.symm⟩

theorem save_src {o : Oracle} {fs : FS} {i : PImage} {q : ℕ} {fs1 : FS} {n1 : ℕ}
    (h : save o fs i q = Except.ok (fs1, n1)) : fs1.src = fs.src := by
  obtain ⟨b, _, rfl, _⟩ := save_ok_inv h
  rfl

theorem save_dest {o : Oracle} {fs : FS} {i : PImage} {q : ℕ} {fs1 : FS} {n1 : ℕ}
    (h : save o fs i q = Except.ok (fs1, n1)) : fs1.dest = fs.dest := by
  obtain ⟨b, _, rfl, _⟩ := save_ok_inv h
  rfl

theorem publish_src (o : Oracle) (fs : FS) (evs : List Ev) (li : PImage) :
    (publish o fs evs li).fs.src = fs.src := by
  unfold publish
  split_ifs <;> rfl

theorem publish_dest_self {o : Oracle} {fs : FS} {evs : List Ev} {li : PImage}
    (h : (publish o fs evs li).result = Except.ok ()) :
    (publish o fs evs li).fs.dest = fs.work ∧
      (publish o fs evs li).events = evs ++ [Ev.copy] ∧
      (publish o fs evs li).pubImg = some li := by
  unfold publish at h ⊢
  by_cases hcp : o.copyFail = true
  · rw [if_pos hcp] at h
    exact absurd h (by simp)
  · rw [if_neg hcp]
    exact ⟨rfl, rfl, rfl⟩

/-! ### Structural facts about the escalation branch -/

theorem afterGate1_resize_mem (o : Oracle) (fs1 : FS) (img : PImage) :
    Ev.resize img (new_size img.width img.height) ∈ (afterGate1 o fs1 img).events := by
  unfold afterGate1
  dsimp only
  split
  · simp
  · split
    · split
      · simp
      · unfold publish
        split <;> simp
    · unfold publish
      split <;> simp

theorem afterGate1_src (o : Oracle) (fs1 : FS) (img : PImage) :
    (afterGate1 o fs1 img).fs.src = fs1.src := by
  unfold afterGate1
  dsimp only
  split
  · rfl
  · rename_i fs2 size2 heq
    have h2 : fs2.src = fs1.src := save_src heq
    split
    · split
      · exact h2
      · rename_i fs3 size3 heq3
        have h3 : fs3.src = fs2.src := save_src heq3
        rw [publish_src, h3, h2]
    · rw [publish_src, h2]

theorem afterGate1_publishes (o : Oracle) (fs1 : FS) (img : PImage) :
    (afterGate1 o fs1 img).result = Except.ok () →
      (afterGate1 o fs1 img).fs.dest = (afterGate1 o fs1 img).fs.work ∧
      (afterGate1 o fs1 img).fs.work ≠ none ∧
      (afterGate1 o fs1 img).events.getLast? = some Ev.copy := by
  unfold afterGate1
  dsimp only
  split
  · intro hok
    exact absurd hok (by simp)
  · rename_i fs2 size2 heq
    obtain ⟨b2, henc2, hfs2, hsz2⟩ := save_ok_inv heq
    split
    · split
      · intro hok
        exact absurd hok (by simp)
      · rename_i fs3 size3 heq3
        obtain ⟨b3, henc3, hfs3, hsz3⟩ := save_ok_inv heq3
        unfold publish
        split
        · intro hok
          exact absurd hok (by simp)
        · intro _
          subst hfs3
          exact ⟨rfl, by simp, List.getLast?_concat _⟩
    · unfold publish
      split
      · intro hok
        exact absurd hok (by simp)
      · intro _
        subst hfs2
        exact ⟨rfl, by simp, List.getLast?_concat _⟩

theorem afterGate1_error (o : Oracle) (fs1 : FS) (img : PImage) :
    ∀ e, (afterGate1 o fs1 img).result = Except.error e →
      Ev.copy ∉ (afterGate1 o fs1 img).events ∧
      (afterGate1 o fs1 img).fs.dest = fs1.dest := by
  unfold afterGate1
  dsimp only
  split
  · intro e _
    exact ⟨by simp, rfl⟩
  · rename_i fs2 size2 heq
    have hd2 : fs2.dest = fs1.dest := save_dest heq
    split
    · split
      · intro e _
        exact ⟨by simp, hd2⟩
      · rename_i fs3 size3 heq3
        have hd3 : fs3.dest = fs2.dest := save_dest heq3
        unfold publish
        split
        · intro e _
          exact ⟨by simp, by rw [hd3, hd2]⟩
        · intro e h
          exact absurd h (by simp)
    · unfold publish
      split
      · intro e _
        exact ⟨by simp, hd2⟩
      · intro e h
        exact absurd h (by simp)

theorem afterGate1_copyFail (o : Oracle) (fs1 : FS) (img : PImage)
    (hcp : o.copyFail = true) :
    ∀ u, (afterGate1 o fs1 img).result ≠ Except.ok u := by
  unfold afterGate1
  dsimp only
  split
  · intro u
    simp
  · split
    · split
      · intro u
        simp
      · unfold publish
        rw [if_pos hcp]
        intro u
        simp
    · unfold publish
      rw [if_pos hcp]
      intro u
      simp

/-! ### Claim C1 -/

/-- C1: the size gate is a pure function of the byte size, true exactly when
the binary64 evaluation of `n / 1024 / 1024` is at least `1.0`, and for
every nonnegative integer byte count `n` this is equivalent to the exact
integer comparison `1048576 ≤ n`: the floating-point division introduces no
discrepancy at or near the 1 MiB boundary. -/
theorem size_gate_exact (n : ℕ) : gate n = decide (1048576 ≤ n) := by
  by_cases h : 1048576 ≤ n
  · rw [(gate_iff n).2 h, decide_eq_true h]
  · cases hgn : gate n with
    | false => rw [decide_eq_false h]
    | true => exact absurd ((gate_iff n).1 hgn) h

/-! ### Claim C2 -/

set_option maxRecDepth 4000 in
/-- C2 (counterexample): the claim that `int(d * 0.9)` equals
`floor(0.9 * d)` for every positive integer dimension `d` is false: at
`d = 1250999896491811` (about `1.25 * 10 ^ 15`, where the spacing of
binary64 numbers near `0.9 * d` has grown to `1/4`) the product rounds up
across the next integer, giving `1125899906842630` instead of the exact
floor `1125899906842629`. -/
theorem new_size_not_floor :
    intTimes09 1250999896491811 ≠ 9 * 1250999896491811 / 10 := by
  decide

/-- C2 (amended): for every positive integer dimension `d ≤ 2 ^ 50` — which
covers every dimension a decoded image can actually have — the binary64
evaluation of `int(d * 0.9)` equals the mathematical floor of `0.9 * d`,
so the stage-1 resize target is exactly
`(floor(0.9 * width), floor(0.9 * height))`; the equality fails only for
astronomically large dimensions (see the counterexample). -/
theorem new_size_floor (w h : ℕ) (hw0 : 0 < w) (hw : w ≤ 2 ^ 50)
    (hh0 : 0 < h) (hh : h ≤ 2 ^ 50) :
    new_size w h = (9 * w / 10, 9 * h / 10) := by
  rw [new_size, intTimes09_floor_eq w hw0 hw, intTimes09_floor_eq h hh0 hh]

/-- C2 witness: the amended theorem applied at the spec scenario dimensions
4000 by 3000, giving the stage-1 target (3600, 2700). -/
theorem new_size_floor_witness :
    0 < 4000 ∧ 4000 ≤ 2 ^ 50 ∧ 0 < 3000 ∧ 3000 ≤ 2 ^ 50 ∧
      new_size 4000 3000 = (3600, 2700) :=
  ⟨by norm_num, by norm_num, by norm_num, by norm_num,
    new_size_floor 4000 3000 (by norm_num) (by norm_num) (by norm_num) (by norm_num)⟩

/-! ### Reduction of a run once the oracle answers are pinned -/

theorem run_gate1_true (o : Oracle) (fs : FS) (sb : List ℕ) (w h : ℕ) (b1 : List ℕ)
    (hsrc : fs.src = some sb) (hdec : o.decode sb = Except.ok (w, h))
    (he1 : o.enc (PImage.orig w h) 85 = Except.ok b1)
    (hg1 : gate b1.length = true) :
    run o fs = afterGate1 o { fs with work := some b1 } (PImage.orig w h) := by
  simp [run, save, hsrc, hdec, he1, hg1]

theorem run_gate1_false (o : Oracle) (fs : FS) (sb : List ℕ) (w h : ℕ) (b1 : List ℕ)
    (hsrc : fs.src = some sb) (hdec : o.decode sb = Except.ok (w, h))
    (he1 : o.enc (PImage.orig w h) 85 = Except.ok b1)
    (hg1 : gate b1.length = false) :
    run o fs =
      publish o { fs with work := some b1 } [Ev.save (PImage.orig w h) 85]
        (PImage.orig w h) := by
  simp [run, save, hsrc, hdec, he1, hg1]

/-! ### Claim C9 -/

/-- C9: the source file is only ever read, never written: whatever path a
run takes — including every failure path — the byte content of the source
path is unchanged in the final file-system state; only the working path and
the destination path are ever written. -/
theorem run_preserves_src (o : Oracle) (fs : FS) : (run o fs).fs.src = fs.src := by
  unfold run
  dsimp only
  split
  · rfl
  · split
    · rfl
    · split
      · rfl
      · rename_i fs1 size1 heq
        have h1 : fs1.src = fs.src := save_src heq
        split
        · rw [afterGate1_src, h1]
        · rw [publish_src, h1]

/-! ### Claim C4 -/

/-- C4: when the second gate still reports failure the run enters the
second pass: it resizes the image to exactly (800, 800) regardless of the
original aspect ratio, re-encodes at quality 80, performs no third gate
check, and publishes unconditionally — the conclusion holds for every
encoder output `b3` of the quality-80 encode with no hypothesis on its
size, the destination receives exactly `b3`, and the trace ends with the
quality-80 save followed directly by the copy. -/
theorem run_second_pass (o : Oracle) (fs : FS) (sb : List ℕ) (w h : ℕ)
    (b1 b2 b3 : List ℕ)
    (hsrc : fs.src = some sb) (hdec : o.decode sb = Except.ok (w, h))
    (he1 : o.enc (PImage.orig w h) 85 = Except.ok b1)
    (hg1 : gate b1.length = true)
    (he2 : o.enc
        (PImage.resized (PImage.orig w h) (new_size w h).1 (new_size w h).2) 85
      = Except.ok b2)
    (hg2 : gate b2.length = true)
    (he3 : o.enc (PImage.resized (PImage.orig w h) 800 800) 80 = Except.ok b3)
    (hcp : o.copyFail = false) :
    run o fs =
      ⟨{ fs with work := some b3, dest := some b3 },
        [Ev.save (PImage.orig w h) 85,
          Ev.resize (PImage.orig w h) (new_size w h),
          Ev.save (PImage.resized (PImage.orig w h) (new_size w h).1
            (new_size w h).2) 85,
          Ev.resize (PImage.orig w h) (800, 800),
          Ev.save (PImage.resized (PImage.orig w h) 800 800) 80,
          Ev.copy],
        some (PImage.resized (PImage.orig w h) 800 800),
        Except.ok ()⟩ ∧
      (PImage.resized (PImage.orig w h) 800 800).width = 800 ∧
      (PImage.resized (PImage.orig w h) 800 800).height = 800 := by
  refine ⟨?_, rfl, rfl⟩
  rw [run_gate1_true o fs sb w h b1 hsrc hdec he1 hg1]
  unfold afterGate1
  dsimp only [PImage.width, PImage.height]
  simp [save, he2, hg2, he3, publish, hcp]

/-- C4 witness: a concrete run (2000 by 2000 image, every encode 1 MiB)
exercising the second pass. -/
theorem run_second_pass_witness :
    (run oBig fsInit).fs.dest = some bigBytes ∧
      (run oBig fsInit).result = Except.ok () := by
  have hg : gate bigBytes.length = true := gate_bigBytes
  have h := run_second_pass oBig fsInit [] 2000 2000 bigBytes bigBytes bigBytes
    rfl rfl rfl hg rfl hg rfl rfl
  rw [h.1]
  exact ⟨rfl, rfl⟩

/-! ### Claim C3 -/

theorem afterGate1_stage2_events (o : Oracle) (fs1 : FS) (w h : ℕ)
    (b2 : List ℕ)
    (he2 : o.enc
        (PImage.resized (PImage.orig w h) (new_size w h).1 (new_size w h).2) 85
      = Except.ok b2)
    (hg2 : gate b2.length = true) :
    (afterGate1 o fs1 (PImage.orig w h)).events[3]?
        = some (Ev.resize (PImage.orig w h) (800, 800)) ∧
      ∀ t, Ev.resize
          (PImage.resized (PImage.orig w h) (new_size w h).1 (new_size w h).2) t
        ∉ (afterGate1 o fs1 (PImage.orig w h)).events := by
  unfold afterGate1
  dsimp only [PImage.width, PImage.height]
  simp only [save, he2, hg2, if_true]
  constructor
  · split
    · simp
    · unfold publish
      split <;> simp
  · intro t
    split
    · simp
    · unfold publish
      split <;> simp

/-- C3 (counterexample): the claim that the stage-2 resize takes the
stage-1 resized Image as its input is false on the code: in a concrete run
in which both gates fail, the fourth trace entry is a resize of the
originally decoded image — `img.resize((800, 800))` on line 28 takes `img`,
bound on line 6, as receiver — and that input differs from the stage-1
resized image, which is never the input of any resize call. -/
theorem run_stage2_counterexample :
    (run oBig fsInit).events[3]?
        = some (Ev.resize (PImage.orig 2000 2000) (800, 800)) ∧
      Ev.resize
          (PImage.resized (PImage.orig 2000 2000) (new_size 2000 2000).1
            (new_size 2000 2000).2) (800, 800)
        ∉ (run oBig fsInit).events ∧
      PImage.orig 2000 2000 ≠
        PImage.resized (PImage.orig 2000 2000) (new_size 2000 2000).1
          (new_size 2000 2000).2 := by
  have hrun := run_gate1_true oBig fsInit [] 2000 2000 bigBytes rfl rfl rfl
    gate_bigBytes
  have h := afterGate1_stage2_events oBig { fsInit with work := some bigBytes }
    2000 2000 bigBytes rfl gate_bigBytes
  rw [hrun]
  exact ⟨h.1, h.2 (800, 800), by simp⟩

/-- C3 (amended): the decoded image is superseded only by rebinding, and
when the second gate fails the stage-2 (800 by 800) resize takes the
ORIGINALLY DECODED image as its input, not the stage-1 resized image: the
fourth trace entry is a resize of `PImage.orig w h`, and no resize in the
whole trace takes the stage-1 result as input. -/
theorem run_stage2_original_input (o : Oracle) (fs : FS) (sb : List ℕ)
    (w h : ℕ) (b1 b2 : List ℕ)
    (hsrc : fs.src = some sb) (hdec : o.decode sb = Except.ok (w, h))
    (he1 : o.enc (PImage.orig w h) 85 = Except.ok b1)
    (hg1 : gate b1.length = true)
    (he2 : o.enc
        (PImage.resized (PImage.orig w h) (new_size w h).1 (new_size w h).2) 85
      = Except.ok b2)
    (hg2 : gate b2.length = true) :
    (run o fs).events[3]? = some (Ev.resize (PImage.orig w h) (800, 800)) ∧
      ∀ t, Ev.resize
          (PImage.resized (PImage.orig w h) (new_size w h).1 (new_size w h).2) t
        ∉ (run o fs).events := by
  rw [run_gate1_true o fs sb w h b1 hsrc hdec he1 hg1]
  exact afterGate1_stage2_events o _ w h b2 he2 hg2

/-- C3 witness: the amended theorem applied to the concrete second-pass
run. -/
theorem run_stage2_original_input_witness :
    (run oBig fsInit).events[3]? = some (Ev.resize (PImage.orig 2000 2000) (800, 800)) ∧
      Ev.resize
          (PImage.resized (PImage.orig 2000 2000) (new_size 2000 2000).1
            (new_size 2000 2000).2) (800, 800)
        ∉ (run oBig fsInit).events := by
  have hg : gate bigBytes.length = true := gate_bigBytes
  have h := run_stage2_original_input oBig fsInit [] 2000 2000 bigBytes bigBytes
    rfl rfl rfl hg rfl hg
  exact ⟨h.1, h.2 (800, 800)⟩

/-! ### Claim C5 -/

/-- C5: in every run whose first-pass encode passes the gate (size below
1 MiB) the resizer is never invoked — the trace contains no resize event at
all, a statement about call count, not output — and when the copy succeeds
the published image is the originally decoded one, retaining the original
dimensions. -/
theorem run_no_resize (o : Oracle) (fs : FS) (sb : List ℕ) (w h : ℕ)
    (b1 : List ℕ)
    (hsrc : fs.src = some sb) (hdec : o.decode sb = Except.ok (w, h))
    (he1 : o.enc (PImage.orig w h) 85 = Except.ok b1)
    (hg1 : gate b1.length = false) :
    (∀ i t, Ev.resize i t ∉ (run o fs).events) ∧
      (o.copyFail = false →
        (run o fs).pubImg = some (PImage.orig w h) ∧
        (PImage.orig w h).width = w ∧ (PImage.orig w h).height = h ∧
        (run o fs).fs.dest = some b1) := by
  rw [run_gate1_false o fs sb w h b1 hsrc hdec he1 hg1]
  constructor
  · intro i t
    unfold publish
    split <;> simp
  · intro hcp
    unfold publish
    rw [if_neg (by simp [hcp])]
    exact ⟨rfl, rfl, rfl, rfl⟩

/-- C5 witness: the concrete small run (500 by 500 image, 1-byte encodes)
never resizes and publishes the original dimensions. -/
theorem run_no_resize_witness :
    Ev.resize (PImage.orig 500 500) (new_size 500 500) ∉ (run oSmall fsInit).events ∧
      (run oSmall fsInit).pubImg = some (PImage.orig 500 500) := by
  have hg : gate smallBytes.length = false := gate_false (by norm_num [smallBytes])
  have h := run_no_resize oSmall fsInit [] 500 500 smallBytes rfl rfl rfl hg
  exact ⟨h.1 _ _, (h.2 rfl).1⟩

/-! ### Claim C8 -/

/-- C8: the encoder is deterministic and idempotent on a fixed
input/configuration pair: `enc` is a function of the image value and the
quality setting only (same destination path and optimize flag throughout),
and re-running the very same save over the file state it produced yields
byte-identical output — the identical file state and the identical
reported size. -/
theorem save_idempotent (o : Oracle) (fs : FS) (i : PImage) (q : ℕ)
    (fs1 : FS) (n1 : ℕ)
    (h : save o fs i q = Except.ok (fs1, n1)) :
    save o fs1 i q = Except.ok (fs1, n1) := by
  obtain ⟨b, henc, rfl, rfl⟩ := save_ok_inv h
  unfold save
  rw [henc]

/-- C8 witness: re-encoding the 500 by 500 image over its own output
changes nothing. -/
theorem save_idempotent_witness :
    save oSmall { fsInit with work := some smallBytes } (PImage.orig 500 500) 85
      = Except.ok ({ fsInit with work := some smallBytes }, 1) :=
  save_idempotent oSmall fsInit (PImage.orig 500 500) 85
    { fsInit with work := some smallBytes } 1 rfl

/-! ### Claim C6 -/

theorem publish_work (o : Oracle) (fs : FS) (evs : List Ev) (li : PImage) :
    (publish o fs evs li).fs.work = fs.work := by
  unfold publish
  split <;> rfl

/-- C6: every run that reaches the published state did execute the copy:
whenever the run succeeds — including runs with no resize — the file at the
hard-coded destination is byte-identical to the working file, which holds
the last successfully encoded bytes, the copy overwrote whatever the
destination held before, and the copy is the final event of the trace. -/
theorem run_publishes (o : Oracle) (fs : FS) :
    (run o fs).result = Except.ok () →
      (run o fs).fs.dest = (run o fs).fs.work ∧ (run o fs).fs.work ≠ none ∧
      (run o fs).events.getLast? = some Ev.copy := by
  unfold run
  dsimp only
  split
  · intro hok
    exact absurd hok (by simp)
  · split
    · intro hok
      exact absurd hok (by simp)
    · split
      · intro hok
        exact absurd hok (by simp)
      · rename_i fs1 size1 heq
        obtain ⟨b1, henc1, hfs1, hsz1⟩ := save_ok_inv heq
        split
        · exact afterGate1_publishes o fs1 _
        · intro hok
          obtain ⟨hdest, hevs, hpub⟩ := publish_dest_self hok
          refine ⟨?_, ?_, ?_⟩
          · rw [hdest, publish_work]
          · rw [publish_work, hfs1]
            simp
          · rw [hevs, List.getLast?_concat]

/-- C6 witness: the successful small run publishes and ends with the
copy. -/
theorem run_publishes_witness :
    (run oSmall fsInit).fs.dest = (run oSmall fsInit).fs.work ∧
      (run oSmall fsInit).fs.work ≠ none ∧
      (run oSmall fsInit).events.getLast? = some Ev.copy := by
  have hgf : gate smallBytes.length = false := gate_false (by norm_num [smallBytes])
  have hok : (run oSmall fsInit).result = Except.ok () := by
    rw [run_gate1_false oSmall fsInit [] 500 500 smallBytes rfl rfl rfl hgf]
    rfl
  exact run_publishes oSmall fsInit hok

/-! ### Claim C7 -/

/-- C7: no decode or IO error is caught anywhere: a failing run performs no
copy and leaves the destination untouched (no partial success, no rollback,
no retry); a missing source file or a decode failure aborts before any
effect; a failing first encode aborts with the file system unchanged; a
failing second encode aborts immediately after the stage-1 resize with the
error as outcome and no further effect; a failing third encode aborts
immediately after the stage-2 resize likewise; and a failing copy makes the
whole run fail.  `Except.error` is the model of the uncaught Python
exception, which terminates the process with a non-zero exit status and a
traceback. -/
theorem run_error_propagation (o : Oracle) (fs : FS) :
    (∀ e, (run o fs).result = Except.error e →
        Ev.copy ∉ (run o fs).events ∧ (run o fs).fs.dest = fs.dest) ∧
      (fs.src = none → run o fs = ⟨fs, [], none, Except.error Err.decodeError⟩) ∧
      (∀ sb e, fs.src = some sb → o.decode sb = Except.error e →
        run o fs = ⟨fs, [], none, Except.error e⟩) ∧
      (∀ sb w h e, fs.src = some sb → o.decode sb = Except.ok (w, h) →
        o.enc (PImage.orig w h) 85 = Except.error e →
        run o fs = ⟨fs, [], none, Except.error e⟩) ∧
      (∀ sb w h b1 e, fs.src = some sb → o.decode sb = Except.ok (w, h) →
        o.enc (PImage.orig w h) 85 = Except.ok b1 → gate b1.length = true →
        o.enc (PImage.resized (PImage.orig w h) (new_size w h).1
            (new_size w h).2) 85 = Except.error e →
        run o fs = ⟨{ fs with work := some b1 },
          [Ev.save (PImage.orig w h) 85,
            Ev.resize (PImage.orig w h) (new_size w h)],
          none, Except.error e⟩) ∧
      (∀ sb w h b1 b2 e, fs.src = some sb → o.decode sb = Except.ok (w, h) →
        o.enc (PImage.orig w h) 85 = Except.ok b1 → gate b1.length = true →
        o.enc (PImage.resized (PImage.orig w h) (new_size w h).1
            (new_size w h).2) 85 = Except.ok b2 → gate b2.length = true →
        o.enc (PImage.resized (PImage.orig w h) 800 800) 80 = Except.error e →
        run o fs = ⟨{ fs with work := some b2 },
          [Ev.save (PImage.orig w h) 85,
            Ev.resize (PImage.orig w h) (new_size w h),
            Ev.save (PImage.resized (PImage.orig w h) (new_size w h).1
              (new_size w h).2) 85,
            Ev.resize (PImage.orig w h) (800, 800)],
          none, Except.error e⟩) ∧
      (o.copyFail = true → ∀ u, (run o fs).result ≠ Except.ok u) := by
  refine ⟨?_, ?_, ?_, ?_, ?_, ?_, ?_⟩
  · unfold run
    dsimp only
    split
    · intro e _
      exact ⟨by simp, rfl⟩
    · split
      · intro e _
        exact ⟨by simp, rfl⟩
      · split
        · intro e _
          exact ⟨by simp, rfl⟩
        · rename_i fs1 size1 heq
          have hd1 : fs1.dest = fs.dest := save_dest heq
          split
          · intro e he
            obtain ⟨hmem, hdest⟩ := afterGate1_error o fs1 _ e he
            exact ⟨hmem, by rw [hdest, hd1]⟩
          · intro e he
            unfold publish at he ⊢
            by_cases hcp : o.copyFail = true
            · rw [if_pos hcp] at he ⊢
              exact ⟨by simp, hd1⟩
            · rw [if_neg hcp] at he
              exact absurd he (by simp)
  · intro hnone
    simp [run, hnone]
  · intro sb e hsrc hdec
    simp [run, hsrc, hdec]
  · intro sb w h e hsrc hdec henc
    simp [run, save, hsrc, hdec, henc]
  · intro sb w h b1 e hsrc hdec he1 hg1 he2
    rw [run_gate1_true o fs sb w h b1 hsrc hdec he1 hg1]
    unfold afterGate1
    dsimp only [PImage.width, PImage.height]
    simp [save, he2]
  · intro sb w h b1 b2 e hsrc hdec he1 hg1 he2 hg2 he3
    rw [run_gate1_true o fs sb w h b1 hsrc hdec he1 hg1]
    unfold afterGate1
    dsimp only [PImage.width, PImage.height]
    simp [save, he2, hg2, he3]
  · intro hcp u
    unfold run
    dsimp only
    split
    · simp
    · split
      · simp
      · split
        · simp
        · split
          · exact afterGate1_copyFail o _ _ hcp u
          · unfold publish
            rw [if_pos hcp]
            simp

/-- C7 witness: a missing source file aborts the run before any effect,
with the decode error as outcome. -/
theorem run_error_propagation_witness :
    run oSmall fsNoSrc = ⟨fsNoSrc, [], none, Except.error Err.decodeError⟩ :=
  (run_error_propagation oSmall fsNoSrc).2.1 rfl

/-! ### Claim C10 -/

/-- C10: the stage-1 target computation is unguarded: for a decoded image
with width at most 1 or height at most 1 whose first-pass encode fires the
gate, `int(dimension * 0.9)` evaluates to 0 for every dimension of at
most 1, so the computed target contains a non-positive component — the two
components are not both positive, violating the positive-dimension
precondition of the resizer — and no positivity check precedes the call:
the resize event is in the trace no matter what happens afterwards. -/
theorem run_unguarded (o : Oracle) (fs : FS) (sb : List ℕ) (w h : ℕ)
    (b1 : List ℕ) (hwh : w ≤ 1 ∨ h ≤ 1)
    (hsrc : fs.src = some sb) (hdec : o.decode sb = Except.ok (w, h))
    (he1 : o.enc (PImage.orig w h) 85 = Except.ok b1)
    (hg1 : gate b1.length = true) :
    (∀ d : ℕ, d ≤ 1 → intTimes09 d = 0) ∧
      ((new_size w h).1 = 0 ∨ (new_size w h).2 = 0) ∧
      ¬(0 < (new_size w h).1 ∧ 0 < (new_size w h).2) ∧
      Ev.resize (PImage.orig w h) (new_size w h) ∈ (run o fs).events := by
  have hzero : ∀ d : ℕ, d ≤ 1 → intTimes09 d = 0 := by
    intro d hd
    interval_cases d
    · decide
    · decide
  have hcomp : (new_size w h).1 = 0 ∨ (new_size w h).2 = 0 := by
    rcases hwh with hw | hh
    · exact Or.inl (by simpa [new_size] using hzero w hw)
    · exact Or.inr (by simpa [new_size] using hzero h hh)
  refine ⟨hzero, hcomp, ?_, ?_⟩
  · rintro ⟨hp1, hp2⟩
    rcases hcomp with h0 | h0 <;> omega
  · rw [run_gate1_true o fs sb w h b1 hsrc hdec he1 hg1]
    have hmem := afterGate1_resize_mem o { fs with work := some b1 } (PImage.orig w h)
    simpa [PImage.width, PImage.height] using hmem

/-- C10 witness: a degenerate 1 by 600 image that fires the gate reaches
the resize call with a target that has a zero component. -/
theorem run_unguarded_witness :
    intTimes09 1 = 0 ∧
      ((new_size 1 600).1 = 0 ∨ (new_size 1 600).2 = 0) ∧
      ¬(0 < (new_size 1 600).1 ∧ 0 < (new_size 1 600).2) ∧
      Ev.resize (PImage.orig 1 600) (new_size 1 600) ∈ (run oTiny fsInit).events := by
  have h := run_unguarded oTiny fsInit [] 1 600 bigBytes (Or.inl (by norm_num))
    rfl rfl rfl gate_bigBytes
  exact ⟨h.1 1 le_rfl, h.2.1, h.2.2.1, h.2.2.2⟩
